import Mathlib

/-!
Shallow embedding of the hornet inbound message processor
(`pkg/protocol/processor/processor.go`).

Pure fragments of the Go code become Lean functions; effectful calls
(event firings, metric increments, peer removal, outbound enqueues,
tangle probes) become explicit entries of an effect trace, in the order
the Go code performs them.  External collaborators (tangle storage,
request queue, wire codec, serialization) are oracles collected in an
`Env` record.  Code of the repository that is not part of the sources
at hand (the WorkUnit helper methods of `workunit.go`, the `sting` wire
constants, the object-storage cache) is modelled from the specification;
each such definition says so in its doc comment.
-/

namespace HornetProc

/-- Byte sequences (payloads, message ids, raw bytes). -/
abbrev Bytes := List Nat

/-- Peer identifier (`peer.Peer` is only observed through its id and counters). -/
abbrev PeerId := Nat

/-- Opaque request handle yielded by the request queue (`rqueue.Request`). -/
abbrev Request := Nat

/-- A parsed tangle message (`tangle.Message`): its message id and its raw bytes. -/
structure Message where
  msgID : Bytes
  rawBytes : Bytes
  deriving DecidableEq, Repr

/-- Outbound wire message built by the `sting` codec.
Modelled from the spec: `sting.NewTransactionMessage(rawBytes)` builds a
transaction-payload message from the raw bytes (§6 WireCodec); the `sting`
package itself is not among the sources. -/
inductive WireMessage where
  | transaction (raw : Bytes)
  deriving DecidableEq, Repr

/-- A broadcast value (`bqueue.Broadcast`): serialized bytes plus the
exclusion set of peers to skip. -/
structure Broadcast where
  msgData : Bytes
  excludePeers : List PeerId
  deriving DecidableEq, Repr

/-- The state of a WorkUnit: `Unhashed`, `Hashing`, `Hashed`, `Invalid`. -/
inductive WuState where
  | Unhashed
  | Hashing
  | Hashed
  | Invalid
  deriving DecidableEq, Repr

/-- Observable side effects of the processor, in program order. -/
inductive Effect where
  | messageProcessed (msg : Message) (request : Option Request) (p : Option PeerId)
  | broadcastMessage (b : Broadcast)
  | removePeer (pid : PeerId)
  | incInvalidTransactions
  | incInvalidRequests
  | incServerKnownTransactions
  | incPeerKnownTransactions (pid : PeerId)
  | enqueueForSending (pid : PeerId) (m : WireMessage)
  | tangleProbe (msgID : Bytes)
  deriving DecidableEq, Repr

/-- The per-payload WorkUnit (`workunit.go`, data part as used by
`processor.go`): the received bytes, the state machine state, the set of
peers the payload was received from, and the parse results. -/
structure WorkUnit where
  receivedMsgBytes : Bytes
  receivedTxHash : Bytes
  state : WuState
  receivedFrom : List PeerId
  msg : Option Message
  receivedMsgID : Option Bytes
  deriving DecidableEq, Repr

/-- A fresh WorkUnit for the given key (`newWorkUnit`): state `Unhashed`,
no recorded senders, no parse results. -/
def newWorkUnit (key : Bytes) : WorkUnit :=
  { receivedMsgBytes := key
  , receivedTxHash := []
  , state := .Unhashed
  , receivedFrom := []
  , msg := none
  , receivedMsgID := none }

/-- Modelled from the spec: `WorkUnit.add_received_from` (workunit.go is not
among the sources) idempotently records that the peer delivered this payload
(§4.1); multiple calls with the same peer coalesce. -/
def WorkUnit.addReceivedFrom (wu : WorkUnit) (p : PeerId) : WorkUnit :=
  if p ∈ wu.receivedFrom then wu
  else { wu with receivedFrom := wu.receivedFrom ++ [p] }

/-- Modelled from the spec: `WorkUnit.punish` (workunit.go is not among the
sources) invokes the peer manager's remove hook for each peer in
`received_from` (§4.1); the error-handling table (§7) and scenario S2
attribute one invalid-transactions increment to this disposition. -/
def WorkUnit.punishEffects (wu : WorkUnit) : List Effect :=
  Effect.incInvalidTransactions :: wu.receivedFrom.map Effect.removePeer

/-- Modelled from the spec: `WorkUnit.increaseKnownTxCount` (workunit.go is
not among the sources) increments the known-transaction counter of each peer
in `received_from` other than the given peer (§4.1). -/
def WorkUnit.increaseKnownTxCount (wu : WorkUnit) (except : PeerId) : List Effect :=
  (wu.receivedFrom.filter (fun q => q ≠ except)).map Effect.incPeerKnownTransactions

/-- Modelled from the spec: `WorkUnit.broadcast` (workunit.go is not among
the sources) constructs a Broadcast carrying the payload and the peers in
`received_from` as the exclusion list (§4.1, §3 Broadcast). -/
def WorkUnit.broadcastValue (wu : WorkUnit) : Broadcast :=
  { msgData := wu.receivedMsgBytes, excludePeers := wu.receivedFrom }

/-- Modelled from the spec: the sentinel index meaning "reply with the
latest known milestone" (`sting.LatestMilestoneRequestIndex`; the `sting`
package is not among the sources, and the sentinel's numeric value is a
wire constant). -/
def LatestMilestoneRequestIndex : Nat := 0

/-- Oracles for the external collaborators of the processor (§6): tangle
storage, request queue, wire codec, serialization, and the
invalid-milestone blocklist (referenced but not defined in the sources;
treated as configuration data per §9). -/
structure Env where
  messageFromBytes : Bytes → Option Message
  requestQueueReceived : Bytes → Option Request
  tangleContains : Bytes → Bool
  getCachedMessageOrNil : Bytes → Option Message
  getLatestMilestoneIndex : Nat
  getMilestoneOrNil : Nat → Option (List Bytes)
  extractRequestedMilestoneIndex : Bytes → Option Nat
  invalidMilestoneHashes : Bytes → Bool
  serialize : Message → Except String Bytes

namespace Processor

/-- `Processor.processWorkUnit` (processor.go lines 213–298), sequentially:
branch on the WorkUnit state under the processing lock, and on the
`Unhashed` path transition to `Hashing`, parse, and either punish
(`Invalid`) or record the parse results, transition to `Hashed`, probe the
tangle, fire `MessageProcessed`, bump known-counts and possibly fire
`BroadcastMessage`.  Returns the updated WorkUnit and the effect trace. -/
def processWorkUnit (env : Env) (wu : WorkUnit) (p : PeerId) :
    WorkUnit × List Effect :=
  match wu.state with
  | .Hashing => (wu, [])
  | .Invalid => (wu, [.incInvalidTransactions, .removePeer p])
  | .Hashed =>
    match wu.msg with
    | none => (wu, [])
    | some m =>
      match env.requestQueueReceived m.msgID with
      | some request => (wu, [.messageProcessed m (some request) (some p)])
      | none =>
        (wu, .tangleProbe m.msgID ::
          (if env.tangleContains m.msgID then
            [.incServerKnownTransactions, .incPeerKnownTransactions p]
          else []))
  | .Unhashed =>
    let wu1 := { wu with state := .Hashing }
    match env.messageFromBytes wu1.receivedMsgBytes with
    | none =>
      let wu2 := { wu1 with state := .Invalid }
      (wu2, wu2.punishEffects)
    | some msg =>
      let request := env.requestQueueReceived msg.msgID
      let wu2 := { wu1 with msg := some msg, receivedMsgID := some msg.msgID }
      if env.invalidMilestoneHashes wu2.receivedTxHash then
        let wu3 := { wu2 with state := .Invalid }
        (wu3, wu3.punishEffects)
      else
        let wu3 := { wu2 with state := .Hashed }
        let containsTx := env.tangleContains msg.msgID
        (wu3,
          [.tangleProbe msg.msgID, .messageProcessed msg request (some p)]
          ++ wu3.increaseKnownTxCount p
          ++ (if request = none ∧ containsTx = false then
                [.broadcastMessage wu3.broadcastValue]
              else []))

/-- Repeated invocation of `processWorkUnit` on the same WorkUnit: fold the
calls left to right, threading the WorkUnit. -/
def runCalls (wu : WorkUnit) (calls : List (Env × PeerId)) : WorkUnit :=
  calls.foldl (fun w c => (processWorkUnit c.1 w c.2).1) wu

/-- `Processor.processMessageRequest` (processor.go lines 184–198): drop
input whose length is not 49; on a tangle hit, enqueue one
transaction-payload message built from the stored raw bytes. -/
def processMessageRequest (env : Env) (p : PeerId) (data : Bytes) :
    List Effect :=
  if data.length ≠ 49 then []
  else
    match env.getCachedMessageOrNil data with
    | none => []
    | some m => [.enqueueForSending p (.transaction m.rawBytes)]

/-- `Processor.processMilestoneRequest` (processor.go lines 153–181):
extraction failure punishes the requester; the sentinel index is replaced
by the latest milestone index; a tangle miss is dropped; a hit enqueues
every constituent transaction. -/
def processMilestoneRequest (env : Env) (p : PeerId) (data : Bytes) :
    List Effect :=
  match env.extractRequestedMilestoneIndex data with
  | none => [.incInvalidRequests, .removePeer p]
  | some idx =>
    let msIndex := if idx = LatestMilestoneRequestIndex then
      env.getLatestMilestoneIndex else idx
    match env.getMilestoneOrNil msIndex with
    | none => []
    | some txs => txs.map (fun raw => .enqueueForSending p (.transaction raw))

/-- `Processor.SerializeAndEmit` (processor.go lines 125–136): serialize,
surface a serialization error to the caller, otherwise fire
`MessageProcessed(msg, nil, nil)` then `BroadcastMessage` with only the
serialized bytes set. -/
def SerializeAndEmit (env : Env) (msg : Message) :
    Except String (List Effect) :=
  match env.serialize msg with
  | .error e => .error e
  | .ok msgData =>
    .ok [.messageProcessed msg none none,
         .broadcastMessage { msgData := msgData, excludePeers := [] }]

end Processor

/-- The WorkUnit cache, as a key-indexed map. -/
def Cache := Bytes → Option WorkUnit

/-- Modelled from the spec: `objectstorage.ComputeIfAbsent` as used by
`Processor.workUnitFor` (the object-storage package is not among the
sources): atomically return the existing entry for the key or construct
one via the factory, so no two callers can each construct a WorkUnit for
the same key (§4.2). -/
def computeIfAbsent (cache : Cache) (key : Bytes) : WorkUnit × Cache :=
  match cache key with
  | some wu => (wu, cache)
  | none =>
    let wu := newWorkUnit key
    (wu, fun k => if k = key then some wu else cache k)

/-- Processor state observed by the transaction pipeline: the WorkUnit
cache. -/
structure ProcState where
  cache : Cache

namespace Processor

/-- `Processor.workUnitFor` (processor.go lines 144–150): get the cached
WorkUnit for the bytes or create it. -/
def workUnitFor (st : ProcState) (receivedTxBytes : Bytes) :
    WorkUnit × ProcState :=
  let (wu, cache) := computeIfAbsent st.cache receivedTxBytes
  (wu, { cache := cache })

/-- `Processor.processTransaction` (processor.go lines 201–207): obtain the
WorkUnit for the bytes, record the sender, process the WorkUnit, and keep
the updated WorkUnit in the cache (the Go code mutates it in place through
the shared pointer). -/
def processTransaction (env : Env) (st : ProcState) (p : PeerId)
    (data : Bytes) : ProcState × List Effect :=
  let (wu0, st1) := workUnitFor st data
  let wu1 := wu0.addReceivedFrom p
  let (wu2, effs) := processWorkUnit env wu1 p
  ({ cache := fun k => if k = data then some wu2 else st1.cache k }, effs)

end Processor

/-- The wire message kind dispatched on by the worker (`message.Type`
switched over the three `sting` message types in `New`, processor.go lines
61–75); `other` covers every byte value that is none of the three cases. -/
inductive MessageKind where
  | transactionPayload
  | transactionRequest
  | milestoneRequest
  | other (code : Nat)
  deriving DecidableEq, Repr

namespace Processor

/-- The worker-pool task body installed by `New` (processor.go lines
61–75): dispatch on the message kind; unrecognized kinds fall through the
switch and the task returns with no action. -/
def workerTask (env : Env) (st : ProcState) (p : PeerId)
    (kind : MessageKind) (data : Bytes) : ProcState × List Effect :=
  match kind with
  | .transactionPayload => processTransaction env st p data
  | .transactionRequest => (st, processMessageRequest env p data)
  | .milestoneRequest => (st, processMilestoneRequest env p data)
  | .other _ => (st, [])

end Processor

/-!
Interleaving model of concurrent `processWorkUnit` calls on one WorkUnit.
Each of `m` workers runs the lock-protected prefix of `processWorkUnit`
(processor.go lines 213–256): acquire the processing lock, branch on the
state, and — only when the state observed under the lock is `Unhashed` —
transition to `Hashing`, release the lock and perform the parse
(`tangle.MessageFromBytes`), finishing in `Hashed` or `Invalid`.
`parseCount` counts the parse invocations.
-/

/-- Program counter of one worker executing `processWorkUnit` on the
shared WorkUnit. -/
inductive Pc where
  | start
  | locked
  | parsing
  | finished
  deriving DecidableEq, Repr

/-- Shared state of the interleaving model: the WorkUnit state, the
holder of the processing lock, each worker's program counter, and the
number of parse invocations performed so far. -/
structure HashSys where
  wuState : WuState
  lockHeld : Option Nat
  pcs : List Pc
  parseCount : Nat
  deriving DecidableEq, Repr

/-- Initial state: a fresh WorkUnit (`Unhashed`), the lock free, `m`
workers about to enter `processWorkUnit`, no parse performed. -/
def initSys (m : Nat) : HashSys :=
  { wuState := .Unhashed
  , lockHeld := none
  , pcs := List.replicate m .start
  , parseCount := 0 }

/-- One interleaved step of some worker `i` (processor.go lines 213–256):
acquire the free lock; under the lock, leave at once when the state is
not `Unhashed` (the `Hashing`/`Invalid`/`Hashed` branches); win the
`Unhashed` → `Hashing` transition and release the lock; or perform the
parse outside the lock, ending `Hashed` or `Invalid`. -/
inductive HashStep : HashSys → HashSys → Prop where
  | acquire (s : HashSys) (i : Nat)
      (hp : s.pcs.get? i = some .start) (hl : s.lockHeld = none) :
      HashStep s { s with lockHeld := some i, pcs := s.pcs.set i .locked }
  | skipTerminal (s : HashSys) (i : Nat)
      (hp : s.pcs.get? i = some .locked) (hl : s.lockHeld = some i)
      (hs : s.wuState ≠ .Unhashed) :
      HashStep s { s with lockHeld := none, pcs := s.pcs.set i .finished }
  | winHashing (s : HashSys) (i : Nat)
      (hp : s.pcs.get? i = some .locked) (hl : s.lockHeld = some i)
      (hs : s.wuState = .Unhashed) :
      HashStep s { s with wuState := .Hashing, lockHeld := none,
                          pcs := s.pcs.set i .parsing }
  | parse (s : HashSys) (i : Nat) (result : WuState)
      (hp : s.pcs.get? i = some .parsing)
      (hres : result = .Hashed ∨ result = .Invalid) :
      HashStep s { s with wuState := result, pcs := s.pcs.set i .finished,
                          parseCount := s.parseCount + 1 }

/-- States reachable by interleaving steps of `m` workers from the
initial state. -/
inductive HashReach (m : Nat) : HashSys → Prop where
  | init : HashReach m (initSys m)
  | step {s t : HashSys} : HashReach m s → HashStep s t → HashReach m t

/-- Number of workers currently in the parsing section. -/
def parsingCount (s : HashSys) : Nat :=
  (s.pcs.filter (fun pc => pc = .parsing)).length

/-- Inductive invariant of the interleaving model: while the WorkUnit is
`Unhashed` nothing has been parsed and no worker has passed the branch;
afterwards the parses performed plus the workers inside the parsing
section total exactly one. -/
def hashInv (s : HashSys) : Prop :=
  (s.wuState = .Unhashed →
    s.parseCount = 0 ∧ parsingCount s = 0 ∧
    ∀ pc ∈ s.pcs, pc = .start ∨ pc = .locked) ∧
  (s.wuState ≠ .Unhashed → s.parseCount + parsingCount s = 1)

/-!
Theorems, one per claim, with closed witnesses for the hypotheses.
-/

/-- A concrete environment used by the witnesses: parsing fails, the
request queue is empty, the tangle is empty, serialization fails. -/
def emptyEnv : Env :=
  { messageFromBytes := fun _ => none
  , requestQueueReceived := fun _ => none
  , tangleContains := fun _ => false
  , getCachedMessageOrNil := fun _ => none
  , getLatestMilestoneIndex := 0
  , getMilestoneOrNil := fun _ => none
  , extractRequestedMilestoneIndex := fun _ => none
  , invalidMilestoneHashes := fun _ => false
  , serialize := fun _ => .error "serialization failed" }

/-- C1: when `processWorkUnit` runs on a WorkUnit in state `Unhashed` and
the transaction payload fails to parse, it sets the state to `Invalid`,
removes every peer recorded in `received_from`, increments the
invalid-transactions metric, and fires no `MessageProcessed` or
`BroadcastMessage` event. -/
theorem processWorkUnit_parse_failure (env : Env) (wu : WorkUnit) (p : PeerId)
    (hst : wu.state = .Unhashed)
    (hparse : env.messageFromBytes wu.receivedMsgBytes = none) :
    (Processor.processWorkUnit env wu p).1.state = .Invalid ∧
    (∀ q ∈ wu.receivedFrom,
      Effect.removePeer q ∈ (Processor.processWorkUnit env wu p).2) ∧
    Effect.incInvalidTransactions ∈ (Processor.processWorkUnit env wu p).2 ∧
    (∀ m r q,
      Effect.messageProcessed m r q ∉ (Processor.processWorkUnit env wu p).2) ∧
    (∀ b, Effect.broadcastMessage b ∉ (Processor.processWorkUnit env wu p).2) := by
  simp only [Processor.processWorkUnit, hst, hparse, WorkUnit.punishEffects]
  refine ⟨by trivial, ?_, ?_, ?_, ?_⟩
  · intro q hq
    exact List.mem_cons_of_mem _ (List.mem_map_of_mem _ hq)
  · exact List.mem_cons_self _ _
  · intro m r q hmem
    rcases List.mem_cons.mp hmem with h | h
    · exact Effect.noConfusion h
    · rcases List.mem_map.mp h with ⟨_, _, h⟩
      exact Effect.noConfusion h
  · intro b hmem
    rcases List.mem_cons.mp hmem with h | h
    · exact Effect.noConfusion h
    · rcases List.mem_map.mp h with ⟨_, _, h⟩
      exact Effect.noConfusion h

/-- Witness for C1: a WorkUnit received from peer 7 whose 200-byte payload
fails to parse is marked `Invalid`, peer 7 is removed, the metric is
bumped, and no event fires. -/
theorem processWorkUnit_parse_failure_witness :
    ((Processor.processWorkUnit emptyEnv
        ((newWorkUnit (List.replicate 200 0)).addReceivedFrom 7) 7).1.state
          = .Invalid ∧
    (∀ q ∈ ((newWorkUnit (List.replicate 200 0)).addReceivedFrom 7).receivedFrom,
      Effect.removePeer q ∈ (Processor.processWorkUnit emptyEnv
        ((newWorkUnit (List.replicate 200 0)).addReceivedFrom 7) 7).2) ∧
    Effect.incInvalidTransactions ∈ (Processor.processWorkUnit emptyEnv
        ((newWorkUnit (List.replicate 200 0)).addReceivedFrom 7) 7).2 ∧
    (∀ m r q, Effect.messageProcessed m r q ∉ (Processor.processWorkUnit emptyEnv
        ((newWorkUnit (List.replicate 200 0)).addReceivedFrom 7) 7).2) ∧
    (∀ b, Effect.broadcastMessage b ∉ (Processor.processWorkUnit emptyEnv
        ((newWorkUnit (List.replicate 200 0)).addReceivedFrom 7) 7).2)) :=
  processWorkUnit_parse_failure emptyEnv
    ((newWorkUnit (List.replicate 200 0)).addReceivedFrom 7) 7 rfl rfl

/-- C5: `SerializeAndEmit` surfaces a serialization error to the caller
with no event fired, and on success fires `MessageProcessed(msg, nil, nil)`
followed by `BroadcastMessage`, returning without error. -/
theorem serializeAndEmit_spec (env : Env) (msg : Message) :
    (∀ e, env.serialize msg = .error e →
      Processor.SerializeAndEmit env msg = .error e) ∧
    (∀ d, env.serialize msg = .ok d →
      Processor.SerializeAndEmit env msg =
        .ok [.messageProcessed msg none none,
             .broadcastMessage { msgData := d, excludePeers := [] }]) := by
  constructor
  · intro e he
    simp [Processor.SerializeAndEmit, he]
  · intro d hd
    simp [Processor.SerializeAndEmit, hd]

/-- Witness for C5: in the concrete environment serialization fails and
the error is returned with no events. -/
theorem serializeAndEmit_spec_witness :
    (∀ e, emptyEnv.serialize ⟨[1], [2]⟩ = .error e →
      Processor.SerializeAndEmit emptyEnv ⟨[1], [2]⟩ = .error e) ∧
    (∀ d, emptyEnv.serialize ⟨[1], [2]⟩ = .ok d →
      Processor.SerializeAndEmit emptyEnv ⟨[1], [2]⟩ =
        .ok [.messageProcessed ⟨[1], [2]⟩ none none,
             .broadcastMessage { msgData := d, excludePeers := [] }]) :=
  serializeAndEmit_spec emptyEnv ⟨[1], [2]⟩

/-- C9: a task whose message kind is none of the three `sting` message
types leaves the processor state unchanged and produces no effect: no
handler runs, no metric changes, no reply, no event, no peer removal. -/
theorem workerTask_unknown_kind (env : Env) (st : ProcState) (p : PeerId)
    (code : Nat) (data : Bytes) :
    Processor.workerTask env st p (.other code) data = (st, []) := by
  rfl

/-- C10: when serialization succeeds, the Broadcast value passed to
`BroadcastMessage` by `SerializeAndEmit` carries exactly the serialized
bytes and an empty peer-exclusion set. -/
theorem serializeAndEmit_broadcast_no_exclusion (env : Env) (msg : Message)
    (d : Bytes) (hd : env.serialize msg = .ok d) :
    ∀ effs, Processor.SerializeAndEmit env msg = .ok effs →
      ∀ b, Effect.broadcastMessage b ∈ effs →
        b.msgData = d ∧ b.excludePeers = [] := by
  intro effs heffs b hb
  simp only [Processor.SerializeAndEmit, hd] at heffs
  cases heffs
  rcases List.mem_cons.mp hb with h | h
  · exact Effect.noConfusion h
  · rcases List.mem_cons.mp h with h | h
    · cases Effect.broadcastMessage.inj h
      simp_all
    · simp at h

/-- Witness for C10: a successfully serializing environment yields a
broadcast with the serialized bytes and no excluded peers. -/
theorem serializeAndEmit_broadcast_no_exclusion_witness :
    Broadcast.msgData { msgData := [9, 9], excludePeers := [] } = [9, 9] ∧
    Broadcast.excludePeers { msgData := [9, 9], excludePeers := [] } = [] :=
  serializeAndEmit_broadcast_no_exclusion
    { emptyEnv with serialize := fun _ => .ok [9, 9] } ⟨[1], [2]⟩ [9, 9] rfl
    [.messageProcessed ⟨[1], [2]⟩ none none,
     .broadcastMessage { msgData := [9, 9], excludePeers := [] }] rfl
    { msgData := [9, 9], excludePeers := [] } (by simp)

/-- C6: `processMessageRequest` silently drops input whose length is not
49 bytes and drops a 49-byte identifier missing from the tangle; on a hit
it enqueues exactly one transaction-payload message built from the stored
raw bytes on the requesting peer. -/
theorem processMessageRequest_spec (env : Env) (p : PeerId) (data : Bytes) :
    (data.length ≠ 49 → Processor.processMessageRequest env p data = []) ∧
    (data.length = 49 → env.getCachedMessageOrNil data = none →
      Processor.processMessageRequest env p data = []) ∧
    (∀ m, data.length = 49 → env.getCachedMessageOrNil data = some m →
      Processor.processMessageRequest env p data =
        [.enqueueForSending p (.transaction m.rawBytes)]) := by
  refine ⟨?_, ?_, ?_⟩
  · intro hlen
    simp [Processor.processMessageRequest, hlen]
  · intro hlen hmiss
    simp [Processor.processMessageRequest, hlen, hmiss]
  · intro m hlen hhit
    simp [Processor.processMessageRequest, hlen, hhit]

/-- Witness for C6: a 49-byte identifier present in the tangle produces
exactly one enqueued transaction-payload reply. -/
theorem processMessageRequest_spec_witness :
    ((List.replicate 49 3).length ≠ 49 →
      Processor.processMessageRequest
        { emptyEnv with getCachedMessageOrNil := fun _ => some ⟨[5], [6]⟩ }
        11 (List.replicate 49 3) = []) ∧
    ((List.replicate 49 3).length = 49 →
      ({ emptyEnv with
          getCachedMessageOrNil := fun _ => some ⟨[5], [6]⟩ } :
            Env).getCachedMessageOrNil (List.replicate 49 3) = none →
      Processor.processMessageRequest
        { emptyEnv with getCachedMessageOrNil := fun _ => some ⟨[5], [6]⟩ }
        11 (List.replicate 49 3) = []) ∧
    (∀ m, (List.replicate 49 3).length = 49 →
      ({ emptyEnv with
          getCachedMessageOrNil := fun _ => some ⟨[5], [6]⟩ } :
            Env).getCachedMessageOrNil (List.replicate 49 3) = some m →
      Processor.processMessageRequest
        { emptyEnv with getCachedMessageOrNil := fun _ => some ⟨[5], [6]⟩ }
        11 (List.replicate 49 3) =
        [.enqueueForSending 11 (.transaction m.rawBytes)]) :=
  processMessageRequest_spec
    { emptyEnv with getCachedMessageOrNil := fun _ => some ⟨[5], [6]⟩ }
    11 (List.replicate 49 3)

/-- C7: `processMilestoneRequest` punishes the requester (invalid-requests
metric, peer removal) on extraction failure; it resolves the sentinel
`LatestMilestoneRequestIndex` to the latest known milestone index; it
silently drops the request when the milestone is absent; on a hit it
enqueues each constituent transaction as a transaction-payload message. -/
theorem processMilestoneRequest_spec (env : Env) (p : PeerId) (data : Bytes) :
    (env.extractRequestedMilestoneIndex data = none →
      Processor.processMilestoneRequest env p data =
        [.incInvalidRequests, .removePeer p]) ∧
    (∀ idx, env.extractRequestedMilestoneIndex data = some idx →
      idx ≠ LatestMilestoneRequestIndex →
      env.getMilestoneOrNil idx = none →
      Processor.processMilestoneRequest env p data = []) ∧
    (∀ idx txs, env.extractRequestedMilestoneIndex data = some idx →
      idx ≠ LatestMilestoneRequestIndex →
      env.getMilestoneOrNil idx = some txs →
      Processor.processMilestoneRequest env p data =
        txs.map (fun raw => .enqueueForSending p (.transaction raw))) ∧
    (env.extractRequestedMilestoneIndex data = some LatestMilestoneRequestIndex →
      env.getMilestoneOrNil env.getLatestMilestoneIndex = none →
      Processor.processMilestoneRequest env p data = []) ∧
    (∀ txs,
      env.extractRequestedMilestoneIndex data = some LatestMilestoneRequestIndex →
      env.getMilestoneOrNil env.getLatestMilestoneIndex = some txs →
      Processor.processMilestoneRequest env p data =
        txs.map (fun raw => .enqueueForSending p (.transaction raw))) := by
  refine ⟨?_, ?_, ?_, ?_, ?_⟩
  · intro hfail
    simp [Processor.processMilestoneRequest, hfail]
  · intro idx hidx hsent hmiss
    simp [Processor.processMilestoneRequest, hidx, hsent, hmiss]
  · intro idx txs hidx hsent hhit
    simp [Processor.processMilestoneRequest, hidx, hsent, hhit]
  · intro hidx hmiss
    simp [Processor.processMilestoneRequest, hidx, hmiss]
  · intro txs hidx hhit
    simp [Processor.processMilestoneRequest, hidx, hhit]

/-- Witness for C7: a request that fails to extract an index increments
the invalid-requests metric and removes the peer. -/
theorem processMilestoneRequest_spec_witness :
    (emptyEnv.extractRequestedMilestoneIndex [1, 2] = none →
      Processor.processMilestoneRequest emptyEnv 4 [1, 2] =
        [.incInvalidRequests, .removePeer 4]) ∧
    (∀ idx, emptyEnv.extractRequestedMilestoneIndex [1, 2] = some idx →
      idx ≠ LatestMilestoneRequestIndex →
      emptyEnv.getMilestoneOrNil idx = none →
      Processor.processMilestoneRequest emptyEnv 4 [1, 2] = []) ∧
    (∀ idx txs, emptyEnv.extractRequestedMilestoneIndex [1, 2] = some idx →
      idx ≠ LatestMilestoneRequestIndex →
      emptyEnv.getMilestoneOrNil idx = some txs →
      Processor.processMilestoneRequest emptyEnv 4 [1, 2] =
        txs.map (fun raw => .enqueueForSending 4 (.transaction raw))) ∧
    (emptyEnv.extractRequestedMilestoneIndex [1, 2] =
        some LatestMilestoneRequestIndex →
      emptyEnv.getMilestoneOrNil emptyEnv.getLatestMilestoneIndex = none →
      Processor.processMilestoneRequest emptyEnv 4 [1, 2] = []) ∧
    (∀ txs, emptyEnv.extractRequestedMilestoneIndex [1, 2] =
        some LatestMilestoneRequestIndex →
      emptyEnv.getMilestoneOrNil emptyEnv.getLatestMilestoneIndex = some txs →
      Processor.processMilestoneRequest emptyEnv 4 [1, 2] =
        txs.map (fun raw => .enqueueForSending 4 (.transaction raw))) :=
  processMilestoneRequest_spec emptyEnv 4 [1, 2]

/-- C3: on a WorkUnit already `Hashed`, `processWorkUnit` fires
`MessageProcessed(msg, request, peer)` exactly when the request queue
returns a matching outstanding request; with no match and the message
already in the tangle it increments the server-wide and the calling
peer's known-transactions counters once each; the WorkUnit is unchanged
and `BroadcastMessage` never fires. -/
theorem processWorkUnit_hashed_reentry (env : Env) (wu : WorkUnit)
    (p : PeerId) (m : Message)
    (hst : wu.state = .Hashed) (hmsg : wu.msg = some m) :
    (Processor.processWorkUnit env wu p).1 = wu ∧
    (∀ b, Effect.broadcastMessage b ∉ (Processor.processWorkUnit env wu p).2) ∧
    (∀ r, env.requestQueueReceived m.msgID = some r →
      (Processor.processWorkUnit env wu p).2 =
        [.messageProcessed m (some r) (some p)]) ∧
    (env.requestQueueReceived m.msgID = none →
      ∀ msg r q,
        Effect.messageProcessed msg r q ∉ (Processor.processWorkUnit env wu p).2) ∧
    (env.requestQueueReceived m.msgID = none →
      env.tangleContains m.msgID = true →
      ((Processor.processWorkUnit env wu p).2.filter
          (fun e => e = Effect.incServerKnownTransactions)).length = 1 ∧
      ((Processor.processWorkUnit env wu p).2.filter
          (fun e => e = Effect.incPeerKnownTransactions p)).length = 1) := by
  refine ⟨?_, ?_, ?_, ?_, ?_⟩
  · simp only [Processor.processWorkUnit, hst, hmsg]
    cases env.requestQueueReceived m.msgID <;> simp
  · intro b
    simp only [Processor.processWorkUnit, hst, hmsg]
    cases env.requestQueueReceived m.msgID <;>
      cases hct : env.tangleContains m.msgID <;> simp
  · intro r hr
    simp [Processor.processWorkUnit, hst, hmsg, hr]
  · intro hnone msg r q
    simp only [Processor.processWorkUnit, hst, hmsg, hnone]
    cases hct : env.tangleContains m.msgID <;> simp
  · intro hnone hct
    simp [Processor.processWorkUnit, hst, hmsg, hnone, hct, List.filter]

/-- Witness for C3: a `Hashed` WorkUnit whose message is known to the
tangle and not requested bumps both known-transactions counters once. -/
theorem processWorkUnit_hashed_reentry_witness :
    ((Processor.processWorkUnit { emptyEnv with tangleContains := fun _ => true }
        { newWorkUnit [8] with state := .Hashed, msg := some ⟨[7], [8]⟩ } 5).1 =
      { newWorkUnit [8] with state := .Hashed, msg := some ⟨[7], [8]⟩ } ∧
    (∀ b, Effect.broadcastMessage b ∉
      (Processor.processWorkUnit { emptyEnv with tangleContains := fun _ => true }
        { newWorkUnit [8] with state := .Hashed, msg := some ⟨[7], [8]⟩ } 5).2) ∧
    (∀ r, ({ emptyEnv with tangleContains := fun _ => true } :
        Env).requestQueueReceived (Message.msgID ⟨[7], [8]⟩) = some r →
      (Processor.processWorkUnit { emptyEnv with tangleContains := fun _ => true }
        { newWorkUnit [8] with state := .Hashed, msg := some ⟨[7], [8]⟩ } 5).2 =
        [.messageProcessed ⟨[7], [8]⟩ (some r) (some 5)]) ∧
    (({ emptyEnv with tangleContains := fun _ => true } :
        Env).requestQueueReceived (Message.msgID ⟨[7], [8]⟩) = none →
      ∀ msg r q, Effect.messageProcessed msg r q ∉
        (Processor.processWorkUnit { emptyEnv with tangleContains := fun _ => true }
          { newWorkUnit [8] with state := .Hashed, msg := some ⟨[7], [8]⟩ } 5).2) ∧
    (({ emptyEnv with tangleContains := fun _ => true } :
        Env).requestQueueReceived (Message.msgID ⟨[7], [8]⟩) = none →
      ({ emptyEnv with tangleContains := fun _ => true } :
        Env).tangleContains (Message.msgID ⟨[7], [8]⟩) = true →
      ((Processor.processWorkUnit { emptyEnv with tangleContains := fun _ => true }
          { newWorkUnit [8] with state := .Hashed, msg := some ⟨[7], [8]⟩ } 5).2.filter
            (fun e => e = Effect.incServerKnownTransactions)).length = 1 ∧
      ((Processor.processWorkUnit { emptyEnv with tangleContains := fun _ => true }
          { newWorkUnit [8] with state := .Hashed, msg := some ⟨[7], [8]⟩ } 5).2.filter
            (fun e => e = Effect.incPeerKnownTransactions 5)).length = 1)) :=
  processWorkUnit_hashed_reentry
    { emptyEnv with tangleContains := fun _ => true }
    { newWorkUnit [8] with state := .Hashed, msg := some ⟨[7], [8]⟩ }
    5 ⟨[7], [8]⟩ rfl rfl

/-- Once a WorkUnit is in a terminal state, `processWorkUnit` returns it
unchanged (helper for the monotonicity claim). -/
lemma processWorkUnit_terminal_fix (env : Env) (wu : WorkUnit) (p : PeerId)
    (hst : wu.state = .Hashed ∨ wu.state = .Invalid) :
    (Processor.processWorkUnit env wu p).1 = wu := by
  rcases hst with h | h
  · simp only [Processor.processWorkUnit, h]
    cases wu.msg with
    | none => rfl
    | some m => cases hr : env.requestQueueReceived m.msgID <;> simp [hr]
  · simp [Processor.processWorkUnit, h]

/-- C4: a WorkUnit observed in a terminal state (`Hashed` or `Invalid`) is
never mutated again: any single `processWorkUnit` call returns it
unchanged, and any sequence of further calls leaves its state as it was. -/
theorem processWorkUnit_state_monotone (wu : WorkUnit)
    (hst : wu.state = .Hashed ∨ wu.state = .Invalid) :
    (∀ env p, (Processor.processWorkUnit env wu p).1 = wu) ∧
    (∀ calls : List (Env × PeerId),
      (Processor.runCalls wu calls).state = wu.state) := by
  have hfix : ∀ calls : List (Env × PeerId), Processor.runCalls wu calls = wu := by
    intro calls
    induction calls with
    | nil => rfl
    | cons c cs ih =>
      show Processor.runCalls wu (c :: cs) = wu
      have hstep : (Processor.processWorkUnit c.1 wu c.2).1 = wu :=
        processWorkUnit_terminal_fix c.1 wu c.2 hst
      calc Processor.runCalls wu (c :: cs)
          = Processor.runCalls (Processor.processWorkUnit c.1 wu c.2).1 cs := rfl
        _ = Processor.runCalls wu cs := by rw [hstep]
        _ = wu := ih
  exact ⟨fun env p => processWorkUnit_terminal_fix env wu p hst,
         fun calls => by rw [hfix]⟩

/-- Witness for C4: an `Invalid` WorkUnit stays exactly as it is across
any call and across a concrete sequence of calls. -/
theorem processWorkUnit_state_monotone_witness :
    (∀ env p,
      (Processor.processWorkUnit env
        { newWorkUnit [3] with state := .Invalid } p).1 =
      { newWorkUnit [3] with state := .Invalid }) ∧
    (∀ calls : List (Env × PeerId),
      (Processor.runCalls { newWorkUnit [3] with state := .Invalid } calls).state =
        ({ newWorkUnit [3] with state := .Invalid } : WorkUnit).state) :=
  processWorkUnit_state_monotone
    { newWorkUnit [3] with state := .Invalid } (Or.inr rfl)

/-- C8: on the successful first-hash path of `processWorkUnit` the tangle
probe for pre-existing presence of the message id is the first observable
action, `MessageProcessed` fires right after it and before any
`BroadcastMessage`, and `BroadcastMessage` fires exactly when the payload
was neither requested nor already contained in the tangle at the probe. -/
theorem processWorkUnit_event_order (env : Env) (wu : WorkUnit)
    (p : PeerId) (m : Message)
    (hst : wu.state = .Unhashed)
    (hparse : env.messageFromBytes wu.receivedMsgBytes = some m)
    (hbl : env.invalidMilestoneHashes wu.receivedTxHash = false) :
    (Processor.processWorkUnit env wu p).2.get? 0 =
      some (.tangleProbe m.msgID) ∧
    (Processor.processWorkUnit env wu p).2.get? 1 =
      some (.messageProcessed m (env.requestQueueReceived m.msgID) (some p)) ∧
    (∀ j b, (Processor.processWorkUnit env wu p).2.get? j =
      some (.broadcastMessage b) → 1 < j) ∧
    ((∃ b, Effect.broadcastMessage b ∈ (Processor.processWorkUnit env wu p).2) ↔
      (env.requestQueueReceived m.msgID = none ∧
        env.tangleContains m.msgID = false)) := by
  simp only [Processor.processWorkUnit, hst, hparse, hbl,
    Bool.false_eq_true, if_false, WorkUnit.increaseKnownTxCount,
    List.cons_append, List.nil_append]
  refine ⟨rfl, rfl, ?_, ?_⟩
  · intro j b hj
    match j with
    | 0 => exact absurd (Option.some.inj hj) (by intro h; exact Effect.noConfusion h)
    | 1 => exact absurd (Option.some.inj hj) (by intro h; exact Effect.noConfusion h)
    | (k + 2) => omega
  · constructor
    · rintro ⟨b, hb⟩
      rcases List.mem_cons.mp hb with h | h
      · exact absurd h (by intro h; exact Effect.noConfusion h)
      rcases List.mem_cons.mp h with h | h
      · exact absurd h (by intro h; exact Effect.noConfusion h)
      rcases List.mem_append.mp h with h | h
      · rcases List.mem_map.mp h with ⟨_, _, h⟩
        exact absurd h (by intro h; exact Effect.noConfusion h)
      · by_cases hc : env.requestQueueReceived m.msgID = none ∧
          env.tangleContains m.msgID = false
        · exact hc
        · simp [hc] at h
    · rintro ⟨hreq, hct⟩
      refine ⟨WorkUnit.broadcastValue { wu with state := .Hashed, msg := some m, receivedMsgID := some m.msgID }, ?_⟩
      apply List.mem_cons_of_mem
      apply List.mem_cons_of_mem
      apply List.mem_append_right
      simp [hreq, hct]

/-- Witness for C8: a payload from peer 2 that parses, is unrequested and
unknown to the tangle yields probe, then `MessageProcessed`, then a
broadcast strictly after both. -/
theorem processWorkUnit_event_order_witness :
    ((Processor.processWorkUnit
        { emptyEnv with messageFromBytes := fun _ => some ⟨[7], [8]⟩ }
        ((newWorkUnit [8]).addReceivedFrom 2) 2).2.get? 0 =
      some (.tangleProbe (Message.msgID ⟨[7], [8]⟩)) ∧
    (Processor.processWorkUnit
        { emptyEnv with messageFromBytes := fun _ => some ⟨[7], [8]⟩ }
        ((newWorkUnit [8]).addReceivedFrom 2) 2).2.get? 1 =
      some (.messageProcessed ⟨[7], [8]⟩
        (({ emptyEnv with messageFromBytes := fun _ => some ⟨[7], [8]⟩ } :
          Env).requestQueueReceived (Message.msgID ⟨[7], [8]⟩)) (some 2)) ∧
    (∀ j b, (Processor.processWorkUnit
        { emptyEnv with messageFromBytes := fun _ => some ⟨[7], [8]⟩ }
        ((newWorkUnit [8]).addReceivedFrom 2) 2).2.get? j =
      some (.broadcastMessage b) → 1 < j) ∧
    ((∃ b, Effect.broadcastMessage b ∈ (Processor.processWorkUnit
        { emptyEnv with messageFromBytes := fun _ => some ⟨[7], [8]⟩ }
        ((newWorkUnit [8]).addReceivedFrom 2) 2).2) ↔
      (({ emptyEnv with messageFromBytes := fun _ => some ⟨[7], [8]⟩ } :
          Env).requestQueueReceived (Message.msgID ⟨[7], [8]⟩) = none ∧
        ({ emptyEnv with messageFromBytes := fun _ => some ⟨[7], [8]⟩ } :
          Env).tangleContains (Message.msgID ⟨[7], [8]⟩) = false))) :=
  processWorkUnit_event_order
    { emptyEnv with messageFromBytes := fun _ => some ⟨[7], [8]⟩ }
    ((newWorkUnit [8]).addReceivedFrom 2) 2 ⟨[7], [8]⟩ rfl rfl rfl

/-- Updating one position of a list changes the number of elements
satisfying a predicate by the contributions of the old and new values
(helper for the interleaving invariant). -/
lemma filter_length_set (P : Pc → Bool) :
    ∀ (l : List Pc) (i : Nat) (a b : Pc), l.get? i = some a →
      ((l.set i b).filter P).length + (if P a then 1 else 0)
        = (l.filter P).length + (if P b then 1 else 0) := by
  intro l
  induction l with
  | nil =>
    intro i a b h
    simp at h
  | cons x xs ih =>
    intro i a b h
    cases i with
    | zero =>
      have hx : x = a := by simpa using h
      subst hx
      cases hP : P x <;> cases hQ : P b <;>
        simp [List.set, List.filter_cons, hP, hQ]
    | succ n =>
      have h' : xs.get? n = some a := by simpa using h
      have hrec := ih n a b h'
      cases hP : P x <;> cases hPa : P a <;> cases hPb : P b <;>
        simp [List.set, List.filter_cons, hP, hPa, hPb] at hrec ⊢ <;>
        omega

/-- The invariant holds initially. -/
lemma hashInv_init (m : Nat) : hashInv (initSys m) := by
  constructor
  · intro _
    refine ⟨rfl, ?_, ?_⟩
    · show ((List.replicate m Pc.start).filter _).length = 0
      induction m with
      | zero => rfl
      | succ n ih =>
        rw [List.replicate_succ, List.filter_cons]
        simp only [decide_eq_true_eq, reduceCtorEq, if_false]
        exact ih rfl
    · intro pc hpc
      left
      exact List.eq_of_mem_replicate hpc
  · intro hne
    exact absurd rfl hne

/-- The invariant is preserved by every interleaved step. -/
lemma hashInv_step {s t : HashSys} (hinv : hashInv s) (h : HashStep s t) :
    hashInv t := by
  obtain ⟨h1, h2⟩ := hinv
  cases h with
  | acquire i hp hl =>
    have hcount := filter_length_set (fun pc => pc = .parsing)
      s.pcs i .start .locked hp
    simp only [decide_eq_true_eq] at hcount
    constructor
    · intro hu
      obtain ⟨hc, hpc, hall⟩ := h1 hu
      refine ⟨hc, ?_, ?_⟩
      · simp only [parsingCount] at hpc ⊢
        simp at hcount
        omega
      · intro pc hmem
        rcases List.mem_or_eq_of_mem_set hmem with hm | he
        · exact hall pc hm
        · exact Or.inr he
    · intro hu
      have hsum := h2 hu
      simp only [parsingCount] at hsum ⊢
      simp at hcount
      omega
  | skipTerminal i hp hl hs =>
    have hcount := filter_length_set (fun pc => pc = .parsing)
      s.pcs i .locked .finished hp
    constructor
    · intro hu
      exact absurd hu hs
    · intro _
      have hsum := h2 hs
      simp only [parsingCount] at hsum ⊢
      simp at hcount
      omega
  | winHashing i hp hl hs =>
    have hcount := filter_length_set (fun pc => pc = .parsing)
      s.pcs i .locked .parsing hp
    obtain ⟨hc, hpc, _⟩ := h1 hs
    constructor
    · intro hu
      exact WuState.noConfusion hu
    · intro _
      simp only [parsingCount] at hpc ⊢
      simp at hcount
      omega
  | parse i result hp hres =>
    have hcount := filter_length_set (fun pc => pc = .parsing)
      s.pcs i .parsing .finished hp
    have hmem : Pc.parsing ∈ s.pcs := List.get?_mem hp
    have hne : s.wuState ≠ .Unhashed := by
      intro hu
      obtain ⟨_, _, hall⟩ := h1 hu
      rcases hall _ hmem with h | h <;> exact Pc.noConfusion h
    have hsum := h2 hne
    constructor
    · intro hu
      rcases hres with h | h <;> rw [h] at hu <;> exact WuState.noConfusion hu
    · intro _
      simp only [parsingCount] at hsum ⊢
      simp at hcount
      omega

/-- The invariant holds in every reachable state. -/
lemma hashInv_reach {m : Nat} {s : HashSys} (h : HashReach m s) : hashInv s := by
  induction h with
  | init => exact hashInv_init m
  | step _ hstep ih => exact hashInv_step ih hstep

/-- The number of workers never changes. -/
lemma pcs_length_reach {m : Nat} {s : HashSys} (h : HashReach m s) :
    s.pcs.length = m := by
  induction h with
  | init => simp [initSys]
  | step _ hstep ih =>
    cases hstep <;> simpa using ih

/-- C2: across any interleaving of concurrent `processWorkUnit` calls on
the WorkUnit of one payload, at most one worker is ever inside the parse
and the payload is parsed at most once — exactly once when every worker
has finished — because only the single worker that observes `Unhashed`
under the processing lock transitions it to `Hashing` and parses; and the
cache yields at most one WorkUnit per distinct byte key: `computeIfAbsent`
installs the unit it returns, and a repeated lookup returns that very
unit. -/
theorem processWorkUnit_at_most_once_parse (m : Nat) (s : HashSys)
    (h : HashReach m s) :
    s.parseCount + parsingCount s ≤ 1 ∧
    ((0 < m ∧ ∀ pc ∈ s.pcs, pc = .finished) → s.parseCount = 1) ∧
    (∀ (cache : Cache) (key : Bytes),
      (computeIfAbsent cache key).2 key = some (computeIfAbsent cache key).1 ∧
      (computeIfAbsent (computeIfAbsent cache key).2 key).1 =
        (computeIfAbsent cache key).1) := by
  obtain ⟨h1, h2⟩ := hashInv_reach h
  have hlen := pcs_length_reach h
  refine ⟨?_, ?_, ?_⟩
  · by_cases hu : s.wuState = .Unhashed
    · obtain ⟨hc, hpc, _⟩ := h1 hu
      omega
    · have := h2 hu
      omega
  · rintro ⟨hm, hfin⟩
    have hne : s.wuState ≠ .Unhashed := by
      intro hu
      obtain ⟨_, _, hall⟩ := h1 hu
      have hnil : s.pcs ≠ [] := by
        intro he
        rw [he] at hlen
        simp at hlen
        omega
      obtain ⟨pc, hpc⟩ := List.exists_mem_of_ne_nil s.pcs hnil
      rcases hall pc hpc with h | h <;>
        rw [hfin pc hpc] at h <;> exact Pc.noConfusion h
    have hsum := h2 hne
    have hzero : parsingCount s = 0 := by
      simp only [parsingCount, List.length_eq_zero]
      rw [List.filter_eq_nil_iff]
      intro pc hpc
      rw [hfin pc hpc]
      simp
    omega
  · intro cache key
    constructor
    · cases hk : cache key <;> simp [computeIfAbsent, hk]
    · cases hk : cache key <;> simp [computeIfAbsent, hk]

/-- Witness for C2: one worker runs to completion (acquire the lock, win
the `Unhashed` → `Hashing` transition, parse to `Hashed`); the payload was
parsed exactly once. -/
theorem processWorkUnit_at_most_once_parse_witness :
    (HashSys.parseCount ⟨.Hashed, none, [.finished], 1⟩ +
      parsingCount ⟨.Hashed, none, [.finished], 1⟩ ≤ 1 ∧
    ((0 < 1 ∧ ∀ pc ∈ HashSys.pcs ⟨.Hashed, none, [.finished], 1⟩,
        pc = .finished) →
      HashSys.parseCount ⟨.Hashed, none, [.finished], 1⟩ = 1) ∧
    (∀ (cache : Cache) (key : Bytes),
      (computeIfAbsent cache key).2 key = some (computeIfAbsent cache key).1 ∧
      (computeIfAbsent (computeIfAbsent cache key).2 key).1 =
        (computeIfAbsent cache key).1)) :=
  processWorkUnit_at_most_once_parse 1 ⟨.Hashed, none, [.finished], 1⟩
    (HashReach.step
      (HashReach.step
        (HashReach.step HashReach.init (HashStep.acquire (initSys 1) 0 rfl rfl))
        (HashStep.winHashing _ 0 rfl rfl rfl))
      (HashStep.parse _ 0 .Hashed rfl (Or.inl rfl)))

end HornetProc
